import Mathlib

/-!
confprint: masking and aligned printing of configuration records

A shallow embedding of `confprint.go`.

* A Go `string` is a finite sequence of bytes; `len`, slicing and `<` work on
  bytes, while `fmt` measures a padding width in runes.  Strings are therefore
  lists of byte values, and `RuneCountInString` follows `unicode/utf8`.
* Go's `int` is modelled by `Int`.  The only arithmetic in the package is
  `len(value) - p.lastCharacters`, whose result is used as a slice bound: for
  64-bit operands a wrapped difference is out of range exactly when the exact
  difference is (`sliceFrom_wrapInt64`), so the slice decides the same way.
* A run-time panic is an `Except.error`.
* The sink is a buffer that takes every write; `Print` does not look at the
  results of its writes.
* `sort.Slice` is an insertion sort in the function `Print`; the relation
  `PrintMayReturn` is the same body with any order the contract of the sort
  allows.  Option lists are lists of `PrinterOption`; where a statement is
  about the calls that made them, they are lists of `OptionCall`.
-/

namespace Confprint

/-! ## Go strings -/

/-- A Go string: its bytes, in order. -/
abbrev GoString := List Nat

/-- The built-in `len` of a string: the number of bytes. -/
def len (s : GoString) : Int := (s.length : Int)

/-- UTF-8 encoding of one code point, used to write string literals. -/
def utf8EncodeRune (c : Nat) : GoString :=
  if c < 0x80 then [c]
  else if c < 0x800 then [0xC0 + c / 0x40, 0x80 + c % 0x40]
  else if c < 0x10000 then [0xE0 + c / 0x1000, 0x80 + (c / 0x40) % 0x40, 0x80 + c % 0x40]
  else [0xF0 + c / 0x40000, 0x80 + (c / 0x1000) % 0x40, 0x80 + (c / 0x40) % 0x40, 0x80 + c % 0x40]

/-- The bytes of a string literal of the source. -/
def str (s : String) : GoString :=
  s.data.flatMap (fun c => utf8EncodeRune c.toNat)

/-- The comparison `a < b` of two Go strings: bytewise lexicographic. -/
def strLess : GoString → GoString → Bool
  | [], [] => false
  | [], _ :: _ => true
  | _ :: _, [] => false
  | a :: as, b :: bs => if a < b then true else if b < a then false else strLess as bs

/-- The entry of `first` in `unicode/utf8` for a lead byte at or above `0x80`:
the size of the encoding and the accepted range of the second byte, or
`none` for an invalid lead byte. -/
def utf8First (c : Nat) : Option (Nat × Nat × Nat) :=
  if c < 0xC2 then none
  else if c < 0xE0 then some (2, 0x80, 0xBF)
  else if c = 0xE0 then some (3, 0xA0, 0xBF)
  else if c < 0xED then some (3, 0x80, 0xBF)
  else if c = 0xED then some (3, 0x80, 0x9F)
  else if c < 0xF0 then some (3, 0x80, 0xBF)
  else if c = 0xF0 then some (4, 0x90, 0xBF)
  else if c < 0xF4 then some (4, 0x80, 0xBF)
  else if c = 0xF4 then some (4, 0x80, 0x8F)
  else none

/-- Whether a byte lies outside the continuation range `0x80..0xBF`. -/
def notCont (b : Nat) : Bool := decide (b < 0x80) || decide (0xBF < b)

/-- The number of bytes one iteration of `utf8.RuneCountInString` advances by,
at a position holding byte `c` followed by `rest`. -/
def runeSize (c : Nat) (rest : GoString) : Nat :=
  if c < 0x80 then 1
  else
    match utf8First c with
    | none => 1
    | some (size, lo, hi) =>
      if rest.length + 1 < size then 1
      else
        match rest with
        | [] => 1
        | b1 :: r1 =>
          if b1 < lo ∨ hi < b1 then 1
          else if size = 2 then 2
          else
            match r1 with
            | [] => 1
            | b2 :: r2 =>
              if notCont b2 then 1
              else if size = 3 then 3
              else
                match r2 with
                | [] => 1
                | b3 :: _ => if notCont b3 then 1 else 4

/-- The loop of `utf8.RuneCountInString`; `fuel` bounds the iterations. -/
def runeCountLoop : Nat → GoString → Nat
  | 0, _ => 0
  | _ + 1, [] => 0
  | fuel + 1, c :: rest => 1 + runeCountLoop fuel (rest.drop (runeSize c rest - 1))

/-- The function `utf8.RuneCountInString`: every iteration consumes at least
one byte, so `len(s)` iterations suffice. -/
def RuneCountInString (s : GoString) : Nat := runeCountLoop s.length s

/-! ## Panics and the library functions of `maskValue` -/

/-- The run-time panics `Print` can raise. -/
inductive Panic where
  /-- The panic of `strings.Repeat` on a negative count. -/
  | negativeRepeatCount
  /-- A slice bound out of range. -/
  | sliceBoundsOutOfRange
  /-- The panic of `reflect.Value.Interface` on an unexported field. -/
  | unexportedField
  deriving DecidableEq, Repr

deriving instance DecidableEq for Except

/-- The function `strings.Repeat`. -/
def stringsRepeat (s : GoString) (count : Int) : Except Panic GoString :=
  if count < 0 then .error .negativeRepeatCount
  else .ok (List.replicate count.toNat s).flatten

/-- The slice expression `s[i:]`. -/
def sliceFrom (s : GoString) (i : Int) : Except Panic GoString :=
  if i < 0 ∨ len s < i then .error .sliceBoundsOutOfRange
  else .ok (s.drop i.toNat)

/-- The value of a 64-bit `int` computation whose exact result is `x`. -/
def wrapInt64 (x : Int) : Int :=
  (x + 9223372036854775808) % 18446744073709551616 - 9223372036854775808

/-! ## The printer and its options -/

/-- The struct `configEntry`. -/
structure configEntry where
  Key : GoString
  Value : GoString
  deriving DecidableEq, Repr

def defaultMaskLength : Int := 8
def defaultLastCharacters : Int := 3
def defaultMinSecretLen : Int := 20

/-- The struct `printer`. -/
structure printer where
  maskLength : Int
  lastCharacters : Int
  minSecretLen : Int
  deriving DecidableEq, Repr

/-- The type `Option` of the package, `func(*printer)`: the update it performs. -/
abbrev PrinterOption := printer → printer

def WithMaskLength (length : Int) : PrinterOption :=
  fun p => { p with maskLength := length }

def WithVisibleSuffix (length : Int) : PrinterOption :=
  fun p => { p with lastCharacters := length }

def WithMinSecretLen (length : Int) : PrinterOption :=
  fun p => { p with minSecretLen := length }

def newPrinter (opts : List PrinterOption) : printer :=
  opts.foldl (fun p opt => opt p)
    { maskLength := defaultMaskLength
      lastCharacters := defaultLastCharacters
      minSecretLen := defaultMinSecretLen }

/-- The method `printer.maskValue`.  The call of `strings.Repeat` is evaluated
before the slice expression. -/
def maskValue (p : printer) (value : GoString) : Except Panic GoString :=
  if len value ≥ p.minSecretLen then do
    let stars ← stringsRepeat (str "*") p.maskLength
    let suffix ← sliceFrom value (len value - p.lastCharacters)
    pure (stars ++ suffix)
  else stringsRepeat (str "*") p.maskLength

/-! ## Records as `reflect` sees them -/

/-- The value held by a struct field, as far as `fmt.Sprintf("%v", ...)`
distinguishes it. -/
inductive FieldValue where
  | string (s : GoString)
  | int (n : Int)
  | bool (b : Bool)
  /-- A value of any other type, given by its `%v` rendering. -/
  | other (rendered : GoString)
  deriving DecidableEq, Repr

/-- Decimal digits of a natural number. -/
def decimal (n : Nat) : GoString := (Nat.toDigits 10 n).map Char.toNat

/-- The call `fmt.Sprintf("%v", v)`. -/
def sprintV : FieldValue → GoString
  | .string s => s
  | .int n => if n < 0 then str "-" ++ decimal n.natAbs else decimal n.natAbs
  | .bool b => if b then str "true" else str "false"
  | .other rendered => rendered

/-- A `reflect.StructTag`, kept as the key/value pairs that `Lookup` finds in
it, in order. -/
abbrev StructTag := List (GoString × GoString)

/-- The method `StructTag.Get`: the value of the first pair with the key, or
the empty string. -/
def StructTag.Get (tag : StructTag) (key : GoString) : GoString :=
  match tag.find? (fun kv => decide (kv.1 = key)) with
  | some kv => kv.2
  | none => []

/-- One field of a struct: its `reflect.StructField` and its value. -/
structure StructField where
  Name : GoString
  /-- Whether the field is exported, so that `Interface` may read it. -/
  exported : Bool
  Tag : StructTag
  value : FieldValue
  deriving DecidableEq, Repr

/-- The kinds of `reflect.Kind` (the sized numeric kinds taken together). -/
inductive Kind where
  | Invalid | Bool | Int | Uint | Float | Complex | Array | Chan | Func
  | Interface | Map | Ptr | Slice | String | Struct | UnsafePointer
  deriving DecidableEq, Repr

/-- The kinds other than pointer and struct that a value can have. -/
inductive PlainKind where
  | Bool | Int | Uint | Float | Complex | Array | Chan | Func
  | Interface | Map | Slice | String | UnsafePointer
  deriving DecidableEq, Repr

def PlainKind.toKind : PlainKind → Kind
  | .Bool => .Bool | .Int => .Int | .Uint => .Uint | .Float => .Float
  | .Complex => .Complex | .Array => .Array | .Chan => .Chan | .Func => .Func
  | .Interface => .Interface | .Map => .Map | .Slice => .Slice
  | .String => .String | .UnsafePointer => .UnsafePointer

/-- A Go value as `Print` inspects it. -/
inductive GoValue where
  /-- A value that is neither a pointer nor a struct: a string, a number, a
  collection and so on.  `Print` looks at its kind only. -/
  | plain (k : PlainKind)
  /-- A pointer; `none` is the nil pointer. -/
  | ptr (elem : Option GoValue)
  | struct (fields : List StructField)

/-- A `reflect.Value`; `none` is the zero Value. -/
abbrev Value := Option GoValue

/-- The function `reflect.ValueOf` on an `interface{}`; `none` is nil. -/
def ValueOf (cfg : Option GoValue) : Value := cfg

def Value.Kind : Value → Kind
  | none => .Invalid
  | some (.plain k) => k.toKind
  | some (.ptr _) => .Ptr
  | some (.struct _) => .Struct

/-- The method `Value.Elem` of a pointer: the zero Value for a nil pointer. -/
def Value.Elem : Value → Value
  | some (.ptr elem) => elem
  | _ => none

/-- The fields `val.Field(0)`, ..., `val.Field(val.NumField()-1)` with their
`typ.Field(i)`.  `Print` asks for them on a struct only. -/
def Value.fields : Value → List StructField
  | some (.struct fields) => fields
  | _ => []

/-! ## Print -/

/-- One iteration of the field loop of `Print`: the entry appended. -/
def fieldEntry (p : printer) (field : StructField) : Except Panic configEntry := do
  if field.exported = false then throw Panic.unexportedField
  let rawValue := sprintV field.value
  let formattedValue ←
    if field.Tag.Get (str "safe") ≠ str "true" then maskValue p rawValue else pure rawValue
  pure { Key := field.Name, Value := formattedValue }

/-- The field loop of `Print`, from the state `(entries, maxKeyWidth)`. -/
def fieldLoop (p : printer) :
    List StructField → List configEntry → Int → Except Panic (List configEntry × Int)
  | [], entries, maxKeyWidth => pure (entries, maxKeyWidth)
  | field :: rest, entries, maxKeyWidth => do
    let entry ← fieldEntry p field
    fieldLoop p rest (entries ++ [entry])
      (if len field.Name > maxKeyWidth then len field.Name else maxKeyWidth)

/-- The length of the longest field name, 0 without fields. -/
def longestName (fields : List StructField) : Int :=
  (fields.map (fun f => len f.Name)).foldr max 0

/-- The order `sort.Slice` leaves two entries in: the second is not less
than the first. -/
def entryLE (a b : configEntry) : Prop := strLess b.Key a.Key = false

instance : DecidableRel entryLE := fun a b => decEq (strLess b.Key a.Key) false

/-- The call `sort.Slice(entries, less)` with `less` comparing keys.  Go leaves
the order of entries with equal keys open; field names of a struct differ. -/
def sortEntries (entries : List configEntry) : List configEntry :=
  entries.insertionSort entryLE

/-- The call `fmt.Fprintln(w, s)` on a sink holding `w`. -/
def Fprintln (w s : GoString) : GoString := w ++ s ++ str "\n"

/-- The number of spaces `fmt` pads `s` with at the width `wid`:
`wid - utf8.RuneCountInString(s)`, none when that is not positive. -/
def padding (wid : Int) (s : GoString) : Nat :=
  (wid - (RuneCountInString s : Int)).toNat

/-- The verb `%-Ns` of `fmt` with `N = wid`: `s`, then the padding. -/
def padRight (wid : Int) (s : GoString) : GoString :=
  s ++ List.replicate (padding wid s) 0x20

/-- The text of `fmt.Sprintf(format, entry.Key, entry.Value)` for the format
`"%-Ns: %s\n"` with `N = maxKeyWidth`, for the widths `fmt` accepts: it gives
up on a width above ten million, which no field name reaches in practice. -/
def formatEntry (maxKeyWidth : Int) (entry : configEntry) : GoString :=
  padRight maxKeyWidth entry.Key ++ str ": " ++ entry.Value ++ str "\n"

/-- What a call of `Print` leaves behind when it returns. -/
structure PrintResult where
  /-- The contents of the sink. -/
  sink : GoString
  /-- The error returned, `none` for nil. -/
  err : Option GoString
  deriving DecidableEq, Repr

/-- The function `Print`, on a sink that holds `w`. -/
def Print (w : GoString) (cfg : Option GoValue) (opts : List PrinterOption) :
    Except Panic PrintResult :=
  let p := newPrinter opts
  let val := ValueOf cfg
  let val := if val.Kind = Kind.Ptr then val.Elem else val
  if val.Kind ≠ Kind.Struct then
    pure { sink := w, err := some (str "cfg must be a struct or pointer to struct") }
  else do
    let (entries, maxKeyWidth) ← fieldLoop p val.fields [] 0
    let entries := sortEntries entries
    let w := Fprintln w (str "=== Configuration ===")
    let w := entries.foldl (fun w entry => w ++ formatEntry maxKeyWidth entry) w
    pure { sink := w, err := none }

/-- Whether an `interface{}` holds a struct or a non-nil pointer to a struct. -/
def isStructOrPointerToStruct : Option GoValue → Bool
  | some (.struct _) => true
  | some (.ptr (some (.struct _))) => true
  | _ => false

/-- A struct with a field name outside ASCII: `État` is 5 bytes and 4 runes. -/
def nonAsciiNames : List StructField :=
  [ { Name := str "État", exported := true, Tag := [], value := .string (str "on") },
    { Name := str "Port", exported := true, Tag := [(str "safe", str "true")],
      value := .int 8080 } ]

/-- The struct type `testConfig` of the tests, with the given field values. -/
def testConfig (apiKey : GoString) (port : Int) (secretKey environment : GoString) : GoValue :=
  .struct
    [ { Name := str "APIKey", exported := true, Tag := [(str "safe", str "false")],
        value := .string apiKey },
      { Name := str "Port", exported := true, Tag := [(str "safe", str "true")],
        value := .int port },
      { Name := str "SecretKey", exported := true, Tag := [], value := .string secretKey },
      { Name := str "Environment", exported := true, Tag := [(str "safe", str "true")],
        value := .string environment } ]

/-- A record with one field for each way of not being tagged `safe:"true"`. -/
def tagVariants : List StructField :=
  [ { Name := str "A", exported := true, Tag := [(str "safe", str "false")],
      value := .string (str "alpha") },
    { Name := str "B", exported := true, Tag := [(str "safe", str "True")],
      value := .string (str "beta") },
    { Name := str "C", exported := true, Tag := [(str "safe", str "1")],
      value := .int 7 },
    { Name := str "D", exported := true, Tag := [(str "safe", str "")],
      value := .bool true },
    { Name := str "E", exported := true, Tag := [], value := .string (str "epsilon") },
    { Name := str "F", exported := true, Tag := [(str "json", str "true")],
      value := .string (str "phi") } ]

/-- A record of two fields tagged `safe:"true"`. -/
def safeOnly : List StructField :=
  [ { Name := str "Port", exported := true, Tag := [(str "safe", str "true")],
      value := .int 8080 },
    { Name := str "Environment", exported := true, Tag := [(str "safe", str "true")],
      value := .string [] } ]

/-! ## Option lists and the order `sort.Slice` leaves -/

/-- The fields of `printer`. -/
inductive printerField where
  | maskLength
  | lastCharacters
  | minSecretLen
  deriving DecidableEq, Repr

/-- The value of a field of a printer. -/
def printer.get (p : printer) : printerField → Int
  | .maskLength => p.maskLength
  | .lastCharacters => p.lastCharacters
  | .minSecretLen => p.minSecretLen

/-- The default of a field, as `newPrinter` sets it. -/
def printerField.default : printerField → Int
  | .maskLength => defaultMaskLength
  | .lastCharacters => defaultLastCharacters
  | .minSecretLen => defaultMinSecretLen

/-- A call of one of the three functions that return an `Option`, with its
argument.  The type `printer` is unexported, so these calls are where the
options of a caller come from. -/
inductive OptionCall where
  /-- The call `WithMaskLength(length)`. -/
  | maskLength (length : Int)
  /-- The call `WithVisibleSuffix(length)`. -/
  | visibleSuffix (length : Int)
  /-- The call `WithMinSecretLen(length)`. -/
  | minSecretLen (length : Int)
  deriving DecidableEq, Repr

/-- The `Option` the call returns. -/
def OptionCall.option : OptionCall → PrinterOption
  | .maskLength length => WithMaskLength length
  | .visibleSuffix length => WithVisibleSuffix length
  | .minSecretLen length => WithMinSecretLen length

/-- The field that the option of the call assigns to. -/
def OptionCall.target : OptionCall → printerField
  | .maskLength _ => .maskLength
  | .visibleSuffix _ => .lastCharacters
  | .minSecretLen _ => .minSecretLen

/-- The argument of the call. -/
def OptionCall.arg : OptionCall → Int
  | .maskLength length => length
  | .visibleSuffix length => length
  | .minSecretLen length => length

/-- The argument of the last call in the list that targets the field, if
there is one. -/
def lastArg (calls : List OptionCall) (field : printerField) : Option Int :=
  ((calls.filter (fun c => decide (c.target = field))).getLast?).map OptionCall.arg

/-- What `sort.Slice` promises about its result, the sort not being stable:
the entries, rearranged so that no entry is less than an earlier one. -/
def sortSliceMayLeave (entries sorted : List configEntry) : Prop :=
  sorted.Perm entries ∧ sorted.Sorted entryLE

/-- The outcomes of `Print` that the contract of `sort.Slice` allows: the body
of `Print` with any order the sort may leave. -/
def PrintMayReturn (w : GoString) (cfg : Option GoValue) (opts : List PrinterOption)
    (out : Except Panic PrintResult) : Prop :=
  let p := newPrinter opts
  let val := ValueOf cfg
  let val := if val.Kind = Kind.Ptr then val.Elem else val
  if val.Kind ≠ Kind.Struct then
    out = .ok { sink := w, err := some (str "cfg must be a struct or pointer to struct") }
  else
    match fieldLoop p val.fields [] 0 with
    | .error e => out = .error e
    | .ok (entries, maxKeyWidth) =>
      ∃ sorted, sortSliceMayLeave entries sorted ∧
        out = .ok { sink := sorted.foldl (fun w entry => w ++ formatEntry maxKeyWidth entry)
                      (Fprintln w (str "=== Configuration ===")),
                    err := none }

/-- The line the words "left-padded to `maxKeyWidth`" describe: the padding
spaces, then the name, then `": "`, the value and a newline. -/
def leftPaddedLine (maxKeyWidth : Int) (entry : configEntry) : GoString :=
  List.replicate (padding maxKeyWidth entry.Key) 0x20 ++ entry.Key ++ str ": "
    ++ entry.Value ++ str "\n"

/-- The struct of the test "basic config with default options". -/
def basicConfig : List StructField :=
  Value.fields (some (testConfig (str "very-long-secret-key-123") 8080 (str "short-secret")
    (str "development")))

/-! ## Masking -/

theorem str_star : str "*" = [0x2A] := by rfl

theorem stringsRepeat_star (n : Int) (h : 0 ≤ n) :
    stringsRepeat (str "*") n = .ok (List.replicate n.toNat 0x2A) := by
  unfold stringsRepeat
  rw [if_neg (not_lt.mpr h), str_star, List.flatten_replicate_singleton]

theorem stringsRepeat_neg (s : GoString) (n : Int) (h : n < 0) :
    stringsRepeat s n = .error .negativeRepeatCount := by
  unfold stringsRepeat
  rw [if_pos h]

theorem sliceFrom_ok (s : GoString) (i : Int) (h0 : 0 ≤ i) (h1 : i ≤ len s) :
    sliceFrom s i = .ok (s.drop i.toNat) := by
  unfold sliceFrom
  rw [if_neg]
  rintro (h | h) <;> omega

theorem sliceFrom_error (s : GoString) (i : Int) (h : i < 0 ∨ len s < i) :
    sliceFrom s i = .error .sliceBoundsOutOfRange := by
  unfold sliceFrom
  rw [if_pos h]

/-- The slice `value[len(value)-n:]` of `maskValue` in 64-bit arithmetic: the
wrapped bound gives the result of the exact one. -/
theorem sliceFrom_wrapInt64 (value : GoString) (n : Int)
    (hlen : len value < 9223372036854775808)
    (hlo : -9223372036854775808 ≤ n) (hhi : n < 9223372036854775808) :
    sliceFrom value (wrapInt64 (len value - n)) = sliceFrom value (len value - n) := by
  have h0 : (0 : Int) ≤ len value := by simp [len]
  by_cases hd : len value - n < 9223372036854775808
  · have hw : wrapInt64 (len value - n) = len value - n := by
      unfold wrapInt64
      omega
    rw [hw]
  · have hw : wrapInt64 (len value - n) < 0 := by
      unfold wrapInt64
      omega
    rw [sliceFrom_error value _ (Or.inl hw), sliceFrom_error value _ (Or.inr (by omega))]

/-- Below the threshold `maskValue` is the run of asterisks. -/
theorem maskValue_below (p : printer) (value : GoString) (hm : 0 ≤ p.maskLength)
    (hlen : len value < p.minSecretLen) :
    maskValue p value = .ok (List.replicate p.maskLength.toNat 0x2A) := by
  unfold maskValue
  rw [if_neg (not_le.mpr hlen)]
  exact stringsRepeat_star _ hm

/-- At or above the threshold, with the suffix length within the value,
`maskValue` is the asterisks followed by the tail of the value. -/
theorem maskValue_above (p : printer) (value : GoString) (hm : 0 ≤ p.maskLength)
    (hlen : p.minSecretLen ≤ len value) (hs0 : 0 ≤ p.lastCharacters)
    (hs1 : p.lastCharacters ≤ len value) :
    maskValue p value =
      .ok (List.replicate p.maskLength.toNat 0x2A
        ++ value.drop (len value - p.lastCharacters).toNat) := by
  unfold maskValue
  rw [if_pos hlen, stringsRepeat_star _ hm,
    sliceFrom_ok value (len value - p.lastCharacters) (by omega) (by omega)]
  rfl

/-- At or above the threshold, with a suffix length outside the value,
`maskValue` panics. -/
theorem maskValue_panics (p : printer) (value : GoString)
    (hlen : p.minSecretLen ≤ len value)
    (hs : p.lastCharacters < 0 ∨ len value < p.lastCharacters) :
    ∃ e, maskValue p value = .error e := by
  unfold maskValue
  rw [if_pos hlen]
  by_cases hm : p.maskLength < 0
  · rw [stringsRepeat_neg _ _ hm]
    exact ⟨_, rfl⟩
  · rw [stringsRepeat_star _ (not_lt.mp hm),
      sliceFrom_error value (len value - p.lastCharacters) (by omega)]
    exact ⟨_, rfl⟩

theorem maskValue_neg_panics (p : printer) (value : GoString) (hm : p.maskLength < 0) :
    maskValue p value = .error .negativeRepeatCount := by
  unfold maskValue
  split
  · rw [stringsRepeat_neg _ _ hm]
    rfl
  · rw [stringsRepeat_neg _ _ hm]

/-- When `maskValue` returns: exactly on a non-negative mask length and, at or
above the threshold, a suffix length within the value. -/
theorem maskValue_ok_iff (p : printer) (value : GoString) :
    (∃ m, maskValue p value = .ok m) ↔
      0 ≤ p.maskLength ∧
        (len value < p.minSecretLen ∨ (0 ≤ p.lastCharacters ∧ p.lastCharacters ≤ len value)) := by
  constructor
  · rintro ⟨m, h⟩
    by_cases hm : p.maskLength < 0
    · rw [maskValue_neg_panics p value hm] at h
      cases h
    · refine ⟨not_lt.mp hm, ?_⟩
      by_contra hc
      push_neg at hc
      obtain ⟨e, he⟩ := maskValue_panics p value hc.1 (by
        by_cases h0 : p.lastCharacters < 0
        · exact Or.inl h0
        · exact Or.inr (hc.2 (not_lt.mp h0)))
      rw [he] at h
      cases h
  · rintro ⟨hm, h | ⟨h0, h1⟩⟩
    · exact ⟨_, maskValue_below p value hm h⟩
    · by_cases hlen : p.minSecretLen ≤ len value
      · exact ⟨_, maskValue_above p value hm hlen h0 h1⟩
      · exact ⟨_, maskValue_below p value hm (not_le.mp hlen)⟩

/-- Claim C3 (P1): with a non-negative mask length, a value shorter than
`minSecretLen` is masked to exactly `maskLength` asterisks: the result holds
`maskLength` bytes, every one of them `*`, and no byte of the value. -/
theorem maskValue_short_is_asterisks (p : printer) (value : GoString)
    (hm : 0 ≤ p.maskLength) (hlen : len value < p.minSecretLen) :
    maskValue p value = .ok (List.replicate p.maskLength.toNat 0x2A) ∧
      len (List.replicate p.maskLength.toNat 0x2A) = p.maskLength := by
  refine ⟨maskValue_below p value hm hlen, ?_⟩
  simp only [len, List.length_replicate]
  omega

theorem maskValue_short_is_asterisks_witness :
    (0 : Int) ≤ (newPrinter []).maskLength ∧
      len (str "short-secret") < (newPrinter []).minSecretLen ∧
      maskValue (newPrinter []) (str "short-secret") = .ok (str "********") :=
  ⟨by decide, by decide,
    (maskValue_short_is_asterisks (newPrinter []) (str "short-secret")
      (by decide) (by decide)).1⟩

/-- Claim C4 (P2), counterexample: with the mask length 8, the suffix length
3 and the threshold 2, all non-negative, the value `ab` has reached the
threshold, and `maskValue` panics on the slice `value[-1:]` instead of
returning a masked text. -/
theorem maskValue_suffix_counterexample :
    (0 : Int) ≤ (newPrinter [WithMinSecretLen 2]).maskLength ∧
      (0 : Int) ≤ (newPrinter [WithMinSecretLen 2]).lastCharacters ∧
      (0 : Int) ≤ (newPrinter [WithMinSecretLen 2]).minSecretLen ∧
      len (str "ab") ≥ (newPrinter [WithMinSecretLen 2]).minSecretLen ∧
      maskValue (newPrinter [WithMinSecretLen 2]) (str "ab")
        = .error .sliceBoundsOutOfRange := by
  decide

/-- Claim C4 (P2), amended: with a non-negative mask length and a suffix
length between 0 and `len(value)`, a value of at least `minSecretLen` bytes is
masked to `maskLength` asterisks followed by the last `lastCharacters` bytes of
the value, and the result is `maskLength + lastCharacters` bytes long. -/
theorem maskValue_long_is_asterisks_and_suffix (p : printer) (value : GoString)
    (hm : 0 ≤ p.maskLength) (hs0 : 0 ≤ p.lastCharacters)
    (hlen : len value ≥ p.minSecretLen) (hs1 : p.lastCharacters ≤ len value) :
    ∃ suffix : GoString,
      suffix <:+ value ∧ len suffix = p.lastCharacters ∧
      maskValue p value = .ok (List.replicate p.maskLength.toNat 0x2A ++ suffix) ∧
      len (List.replicate p.maskLength.toNat 0x2A ++ suffix)
        = p.maskLength + p.lastCharacters := by
  refine ⟨value.drop (len value - p.lastCharacters).toNat, List.drop_suffix _ _, ?_,
    maskValue_above p value hm hlen hs0 hs1, ?_⟩
  · simp only [len, List.length_drop] at *
    omega
  · simp only [len, List.length_append, List.length_replicate, List.length_drop] at *
    omega

theorem maskValue_long_is_asterisks_and_suffix_witness :
    ∃ suffix : GoString,
      suffix <:+ str "very-long-secret-key-12345" ∧
      len suffix = (newPrinter [WithVisibleSuffix 5]).lastCharacters ∧
      maskValue (newPrinter [WithVisibleSuffix 5]) (str "very-long-secret-key-12345")
        = .ok (List.replicate (newPrinter [WithVisibleSuffix 5]).maskLength.toNat 0x2A
            ++ suffix) ∧
      len (List.replicate (newPrinter [WithVisibleSuffix 5]).maskLength.toNat 0x2A ++ suffix)
        = (newPrinter [WithVisibleSuffix 5]).maskLength
          + (newPrinter [WithVisibleSuffix 5]).lastCharacters :=
  maskValue_long_is_asterisks_and_suffix (newPrinter [WithVisibleSuffix 5])
    (str "very-long-secret-key-12345") (by decide) (by decide) (by decide) (by decide)

/-- Claim C5, counterexample: the value `very-long-secret-key-123` has 24
bytes, at least the default threshold 20; with the suffix length 30 above its
length, `maskValue` does not return the asterisks followed by the whole value:
it panics on the slice. -/
theorem maskValue_clamp_counterexample :
    len (str "very-long-secret-key-123") ≥ (newPrinter [WithVisibleSuffix 30]).minSecretLen ∧
      (newPrinter [WithVisibleSuffix 30]).lastCharacters > len (str "very-long-secret-key-123") ∧
      maskValue (newPrinter [WithVisibleSuffix 30]) (str "very-long-secret-key-123")
        = .error .sliceBoundsOutOfRange := by
  decide

/-- Claim C5, amended: the suffix slice is not clamped.  For a value of at
least `minSecretLen` bytes and a suffix length above `len(value)`, `maskValue`
panics; the asterisks followed by the whole value are what it returns, for a
non-negative mask length, once the suffix length is lowered to `len(value)`. -/
theorem maskValue_suffix_not_clamped (p : printer) (value : GoString)
    (hlen : len value ≥ p.minSecretLen) (hs : p.lastCharacters > len value) :
    (∃ e, maskValue p value = .error e) ∧
      (0 ≤ p.maskLength →
        maskValue { p with lastCharacters := len value } value
          = .ok (List.replicate p.maskLength.toNat 0x2A ++ value)) := by
  refine ⟨maskValue_panics p value hlen (Or.inr hs), fun hm => ?_⟩
  have h := maskValue_above { p with lastCharacters := len value } value hm hlen
    (by simp [len]) (le_refl _)
  simpa using h

theorem maskValue_suffix_not_clamped_witness :
    (∃ e, maskValue (newPrinter [WithVisibleSuffix 30]) (str "very-long-secret-key-123")
        = .error e) ∧
      ((0 : Int) ≤ (newPrinter [WithVisibleSuffix 30]).maskLength →
        maskValue { newPrinter [WithVisibleSuffix 30] with
            lastCharacters := len (str "very-long-secret-key-123") }
          (str "very-long-secret-key-123")
          = .ok (List.replicate (newPrinter [WithVisibleSuffix 30]).maskLength.toNat 0x2A
              ++ str "very-long-secret-key-123")) :=
  maskValue_suffix_not_clamped (newPrinter [WithVisibleSuffix 30])
    (str "very-long-secret-key-123") (by decide) (by decide)

/-! ## The field loop -/

theorem fieldEntry_unexported (p : printer) (f : StructField) (h : f.exported = false) :
    fieldEntry p f = .error .unexportedField := by
  simp [fieldEntry, h]
  rfl

theorem fieldEntry_safe (p : printer) (f : StructField) (hexp : f.exported = true)
    (h : f.Tag.Get (str "safe") = str "true") :
    fieldEntry p f = .ok { Key := f.Name, Value := sprintV f.value } := by
  simp [fieldEntry, hexp, h]
  rfl

theorem fieldEntry_sensitive (p : printer) (f : StructField) (hexp : f.exported = true)
    (h : f.Tag.Get (str "safe") ≠ str "true") (m : GoString)
    (hm : maskValue p (sprintV f.value) = .ok m) :
    fieldEntry p f = .ok { Key := f.Name, Value := m } := by
  simp [fieldEntry, hexp, h, hm]

/-- An iteration that returns has read an exported field, and its entry holds
the raw value of a field tagged `safe:"true"` and the masked value of any
other field. -/
theorem fieldEntry_inv (p : printer) (f : StructField) (e : configEntry)
    (h : fieldEntry p f = .ok e) :
    f.exported = true ∧ e.Key = f.Name ∧
      (f.Tag.Get (str "safe") = str "true" → e.Value = sprintV f.value) ∧
      (f.Tag.Get (str "safe") ≠ str "true" → maskValue p (sprintV f.value) = .ok e.Value) := by
  cases hexp : f.exported with
  | false =>
    rw [fieldEntry_unexported p f hexp] at h
    cases h
  | true =>
    by_cases hs : f.Tag.Get (str "safe") = str "true"
    · rw [fieldEntry_safe p f hexp hs] at h
      cases h
      exact ⟨rfl, rfl, fun _ => rfl, fun hne => absurd hs hne⟩
    · cases hm : maskValue p (sprintV f.value) with
      | error err =>
        simp [fieldEntry, hexp, hs, hm, bind, Except.bind, pure, Except.pure] at h
      | ok m =>
        rw [fieldEntry_sensitive p f hexp hs m hm] at h
        cases h
        exact ⟨rfl, rfl, fun he => absurd he hs, fun _ => rfl⟩

/-- The value of `maxKeyWidth` after the loop has run over `fields`. -/
theorem foldl_width (fields : List StructField) (w0 : Int) (h0 : 0 ≤ w0) :
    fields.foldl (fun m f => if len f.Name > m then len f.Name else m) w0
      = max w0 (longestName fields) := by
  induction fields generalizing w0 with
  | nil => simp [longestName, h0]
  | cons f rest ih =>
    have hn : (0 : Int) ≤ len f.Name := by simp [len]
    rw [List.foldl_cons, ih _ (by split <;> omega)]
    simp only [longestName, List.map_cons, List.foldr_cons]
    split <;> omega

theorem longestName_nonneg (fields : List StructField) : 0 ≤ longestName fields := by
  induction fields with
  | nil => simp [longestName]
  | cons f rest ih =>
    simp only [longestName, List.map_cons, List.foldr_cons] at *
    omega

theorem fieldLoop_eq_foldl (p : printer) (fields : List StructField)
    (es : List configEntry)
    (h : List.Forall₂ (fun f e => fieldEntry p f = .ok e) fields es)
    (acc : List configEntry) (w0 : Int) :
    fieldLoop p fields acc w0
      = .ok (acc ++ es,
          fields.foldl (fun m f => if len f.Name > m then len f.Name else m) w0) := by
  induction h generalizing acc w0 with
  | nil => simp [fieldLoop]; rfl
  | @cons f e _ _ hfe _ ih =>
    simp only [fieldLoop, hfe, List.foldl_cons]
    have := ih (acc ++ [e]) (if len f.Name > w0 then len f.Name else w0)
    simpa [bind, Except.bind] using this

/-- When every iteration returns, the loop returns the entries in field order
and the length of the longest name. -/
theorem fieldLoop_ok (p : printer) (fields : List StructField) (es : List configEntry)
    (h : List.Forall₂ (fun f e => fieldEntry p f = .ok e) fields es) :
    fieldLoop p fields [] 0 = .ok (es, longestName fields) := by
  rw [fieldLoop_eq_foldl p fields es h, foldl_width _ _ (le_refl _), List.nil_append,
    max_eq_right (longestName_nonneg fields)]

/-- An iteration that panics ends the loop with its panic. -/
theorem fieldLoop_inv (p : printer) (fields : List StructField) :
    ∀ (acc : List configEntry) (w0 : Int) (r : List configEntry × Int),
      fieldLoop p fields acc w0 = .ok r →
        ∃ es, List.Forall₂ (fun f e => fieldEntry p f = .ok e) fields es := by
  induction fields with
  | nil => intro _ _ _ _; exact ⟨[], List.Forall₂.nil⟩
  | cons f rest ih =>
    intro acc w0 r h
    cases hfe : fieldEntry p f with
    | error e =>
      simp [fieldLoop, hfe, bind, Except.bind] at h
    | ok e =>
      simp only [fieldLoop, hfe, bind, Except.bind] at h
      obtain ⟨es, hes⟩ := ih _ _ r h
      exact ⟨e :: es, List.Forall₂.cons hfe hes⟩

theorem foldl_formatEntry (mw : Int) (es : List configEntry) (w : GoString) :
    es.foldl (fun w entry => w ++ formatEntry mw entry) w
      = w ++ es.flatMap (formatEntry mw) := by
  induction es generalizing w with
  | nil => simp
  | cons e rest ih => simp [ih]

theorem header_line : str "=== Configuration ===" ++ str "\n" = str "=== Configuration ===\n" := by
  rfl

theorem Print_struct (w : GoString) (fields : List StructField) (opts : List PrinterOption) :
    Print w (some (.struct fields)) opts =
      (fieldLoop (newPrinter opts) fields [] 0).map (fun r =>
        { sink := w ++ str "=== Configuration ===\n"
            ++ (sortEntries r.1).flatMap (formatEntry r.2),
          err := none }) := by
  cases h : fieldLoop (newPrinter opts) fields [] 0 with
  | error e =>
    simp [Print, ValueOf, Value.Kind, Value.fields, h, bind, Except.bind, Except.map]
  | ok r =>
    simp [Print, ValueOf, Value.Kind, Value.fields, h, bind, Except.bind, Except.map,
      foldl_formatEntry, Fprintln, pure, Except.pure]
    rw [← List.append_assoc, header_line]

/-- With every iteration returning, `Print` writes the header and the sorted
entries and returns nil. -/
theorem Print_struct_ok (w : GoString) (fields : List StructField) (opts : List PrinterOption)
    (es : List configEntry)
    (h : List.Forall₂ (fun f e => fieldEntry (newPrinter opts) f = .ok e) fields es) :
    Print w (some (.struct fields)) opts =
      .ok { sink := w ++ str "=== Configuration ===\n"
              ++ (sortEntries es).flatMap (formatEntry (longestName fields)),
            err := none } := by
  rw [Print_struct, fieldLoop_ok _ _ _ h]
  rfl

theorem isOk_iff {α : Type} {x : Except Panic α} : x.isOk = true ↔ ∃ a, x = .ok a := by
  cases x with
  | error e => simp [Except.isOk, Except.toBool]
  | ok a => simp [Except.isOk, Except.toBool]

/-- The entries of a record whose fields are exported and whose sensitive
values can be masked. -/
theorem entries_exist (p : printer) (fields : List StructField)
    (hexp : ∀ f ∈ fields, f.exported = true)
    (hmask : ∀ f ∈ fields, f.Tag.Get (str "safe") ≠ str "true" →
      (maskValue p (sprintV f.value)).isOk = true) :
    ∃ es : List configEntry,
      List.Forall₂ (fun f e => fieldEntry p f = .ok e ∧ e.Key = f.Name ∧
        (f.Tag.Get (str "safe") = str "true" → e.Value = sprintV f.value) ∧
        (f.Tag.Get (str "safe") ≠ str "true" →
          maskValue p (sprintV f.value) = .ok e.Value)) fields es := by
  induction fields with
  | nil => exact ⟨[], List.Forall₂.nil⟩
  | cons f rest ih =>
    obtain ⟨es, hes⟩ := ih (fun g hg => hexp g (List.mem_cons_of_mem _ hg))
      (fun g hg => hmask g (List.mem_cons_of_mem _ hg))
    have hf := hexp f (List.mem_cons_self _ _)
    by_cases hs : f.Tag.Get (str "safe") = str "true"
    · exact ⟨{ Key := f.Name, Value := sprintV f.value } :: es,
        List.Forall₂.cons ⟨fieldEntry_safe p f hf hs, rfl, fun _ => rfl,
          fun hne => absurd hs hne⟩ hes⟩
    · obtain ⟨m, hm⟩ := isOk_iff.1 (hmask f (List.mem_cons_self _ _) hs)
      exact ⟨{ Key := f.Name, Value := m } :: es,
        List.Forall₂.cons ⟨fieldEntry_sensitive p f hf hs m hm, rfl,
          fun he => absurd he hs, fun _ => hm⟩ hes⟩

/-! ## The order of strings -/

theorem strLess_irrefl (a : GoString) : strLess a a = false := by
  induction a with
  | nil => rfl
  | cons x xs ih => simp [strLess, ih]

theorem strLess_asymm (a b : GoString) (h : strLess a b = true) : strLess b a = false := by
  induction a generalizing b with
  | nil => cases b <;> simp [strLess] at *
  | cons x xs ih =>
    cases b with
    | nil => simp [strLess] at h
    | cons y ys =>
      simp only [strLess] at *
      by_cases hxy : x < y
      · simp [hxy, Nat.lt_asymm hxy]
      · by_cases hyx : y < x
        · simp [hxy, hyx] at h
        · simp only [hxy, hyx, if_false] at *
          exact ih ys h

theorem strLess_antisymm (a b : GoString) (h1 : strLess a b = false)
    (h2 : strLess b a = false) : a = b := by
  induction a generalizing b with
  | nil => cases b <;> simp [strLess] at *
  | cons x xs ih =>
    cases b with
    | nil => simp [strLess] at h2
    | cons y ys =>
      simp only [strLess] at h1 h2
      by_cases hxy : x < y
      · simp [hxy] at h1
      · by_cases hyx : y < x
        · simp [hyx] at h2
        · simp only [hxy, hyx, if_false] at h1 h2
          have hxy' : x = y := by omega
          rw [hxy', ih ys h1 h2]

/-- Transitivity of `≤`: from `a ≤ b` and `b ≤ c` to `a ≤ c`. -/
theorem strLess_trans_le (a b c : GoString) (h1 : strLess b a = false)
    (h2 : strLess c b = false) : strLess c a = false := by
  induction a generalizing b c with
  | nil => cases c <;> rfl
  | cons x xs ih =>
    cases b with
    | nil => simp [strLess] at h1
    | cons y ys =>
      cases c with
      | nil => simp [strLess] at h2
      | cons z zs =>
        simp only [strLess] at h1 h2 ⊢
        by_cases hyx : y < x
        · simp [hyx] at h1
        · by_cases hzy : z < y
          · simp [hzy] at h2
          · by_cases hxy : x < y
            · have hzx : ¬ z < x := by omega
              have hxz : x < z := by omega
              simp [hzx, hxz]
            · by_cases hyz : y < z
              · have hzx : ¬ z < x := by omega
                have hxz : x < z := by omega
                simp [hzx, hxz]
              · simp only [hyx, hxy, hzy, hyz, if_false] at h1 h2
                have hzx : ¬ z < x := by omega
                have hxz : ¬ x < z := by omega
                simp only [hzx, hxz, if_false]
                exact ih ys zs h1 h2

theorem entryLE_total (a b : configEntry) : entryLE a b ∨ entryLE b a := by
  unfold entryLE
  cases h : strLess b.Key a.Key with
  | false => exact Or.inl rfl
  | true => exact Or.inr (strLess_asymm _ _ h)

theorem entryLE_trans (a b c : configEntry) (hab : entryLE a b) (hbc : entryLE b c) :
    entryLE a c :=
  strLess_trans_le a.Key b.Key c.Key hab hbc

theorem sortEntries_sorted (es : List configEntry) : (sortEntries es).Sorted entryLE :=
  @List.sorted_insertionSort _ entryLE _ ⟨entryLE_total⟩ ⟨entryLE_trans⟩ es

theorem sortEntries_perm (es : List configEntry) : (sortEntries es).Perm es :=
  List.perm_insertionSort entryLE es

/-- Entries with pairwise different keys have one sorted arrangement. -/
theorem sorted_unique (l₁ l₂ : List configEntry) (hp : l₁.Perm l₂)
    (h₁ : l₁.Sorted entryLE) (h₂ : l₂.Sorted entryLE)
    (hn : (l₁.map (fun e => e.Key)).Nodup) : l₁ = l₂ := by
  have strict : ∀ l : List configEntry, l.Sorted entryLE → (l.map (fun e => e.Key)).Nodup →
      l.Sorted (fun a b => strLess a.Key b.Key = true) := by
    intro l hs hnd
    have hne : l.Pairwise (fun a b => a.Key ≠ b.Key) := List.pairwise_map.mp hnd
    refine (List.Pairwise.and hs hne).imp ?_
    rintro a b ⟨hle, hab⟩
    cases hlt : strLess a.Key b.Key with
    | true => rfl
    | false => exact absurd (strLess_antisymm _ _ hlt hle) hab
  have hn₂ : (l₂.map (fun e => e.Key)).Nodup := (hp.map _).nodup_iff.mp hn
  exact @List.eq_of_perm_of_sorted _ (fun a b => strLess a.Key b.Key = true)
    ⟨fun a b hab hba => by rw [strLess_asymm _ _ hab] at hba; cases hba⟩ _ _ hp
    (strict l₁ h₁ hn) (strict l₂ h₂ hn₂)

theorem entries_eq_filterMap (p : printer) (fields : List StructField)
    (es : List configEntry)
    (h : List.Forall₂ (fun f e => fieldEntry p f = .ok e) fields es) :
    fields.filterMap (fun f => (fieldEntry p f).toOption) = es := by
  induction h with
  | nil => rfl
  | @cons f e _ _ hfe _ ih =>
    rw [List.filterMap_cons, hfe]
    exact congrArg (e :: ·) ih

theorem entries_keys (p : printer) (fields : List StructField) (es : List configEntry)
    (h : List.Forall₂ (fun f e => fieldEntry p f = .ok e) fields es) :
    es.map (fun e => e.Key) = fields.map (fun f => f.Name) := by
  induction h with
  | nil => rfl
  | @cons f e _ _ hfe _ ih =>
    rw [List.map_cons, List.map_cons, ih, (fieldEntry_inv p f e hfe).2.1]

theorem longestName_perm (l₁ l₂ : List StructField) (hp : l₁.Perm l₂) :
    longestName l₁ = longestName l₂ := by
  unfold longestName
  apply List.Perm.foldr_eq' (hp.map _)
  intro x _ y _ z
  omega

/-! ## What `Print` writes for a field -/

/-- Whatever `Print` returns on a struct, it has run every iteration of the
loop, written the header and the sorted entries, and returned nil. -/
theorem Print_struct_inv (w : GoString) (fields : List StructField)
    (opts : List PrinterOption) (r : PrintResult)
    (h : Print w (some (.struct fields)) opts = .ok r) :
    ∃ es : List configEntry,
      List.Forall₂ (fun f e => fieldEntry (newPrinter opts) f = .ok e) fields es ∧
      r = { sink := w ++ str "=== Configuration ===\n"
              ++ (sortEntries es).flatMap (formatEntry (longestName fields)),
            err := none } := by
  cases hl : fieldLoop (newPrinter opts) fields [] 0 with
  | error e =>
    rw [Print_struct, hl] at h
    cases h
  | ok r0 =>
    obtain ⟨es, hes⟩ := fieldLoop_inv _ _ _ _ _ hl
    refine ⟨es, hes, ?_⟩
    rw [Print_struct_ok w fields opts es hes] at h
    cases h
    rfl

/-- Claim C1 (fail-safe masking).  For a struct with exported fields whose
sensitive values `maskValue` can mask, `Print` returns nil after writing the
header and one line per field, and the value on the line of every field whose
`safe` tag is not exactly `true` (a missing tag reads as the empty string) is
what `maskValue` returns on the rendered value.  And any report that `Print`
returns with, on any struct, is of this form: no field other than one tagged
`safe:"true"` is printed unmasked. -/
theorem print_masks_unless_safe_true (w : GoString) (fields : List StructField)
    (opts : List PrinterOption) :
    ((∀ f ∈ fields, f.exported = true) →
      (∀ f ∈ fields, f.Tag.Get (str "safe") ≠ str "true" →
        (maskValue (newPrinter opts) (sprintV f.value)).isOk = true) →
      ∃ r, Print w (some (.struct fields)) opts = .ok r) ∧
    (∀ r, Print w (some (.struct fields)) opts = .ok r →
      ∃ entries : List configEntry,
        List.Forall₂ (fun f e => e.Key = f.Name ∧
          (f.Tag.Get (str "safe") ≠ str "true" →
            maskValue (newPrinter opts) (sprintV f.value) = .ok e.Value)) fields entries ∧
        r = { sink := w ++ str "=== Configuration ===\n"
                ++ (sortEntries entries).flatMap (formatEntry (longestName fields)),
              err := none }) := by
  constructor
  · intro hexp hmask
    obtain ⟨es, hes⟩ := entries_exist (newPrinter opts) fields hexp hmask
    exact ⟨_, Print_struct_ok w fields opts es (hes.imp (fun _ _ h => h.1))⟩
  · intro r hr
    obtain ⟨es, hes, hr'⟩ := Print_struct_inv w fields opts r hr
    refine ⟨es, hes.imp (fun f e h => ?_), hr'⟩
    obtain ⟨_, hk, _, hv⟩ := fieldEntry_inv _ f e h
    exact ⟨hk, hv⟩

set_option maxRecDepth 100000 in
theorem print_masks_unless_safe_true_witness :
    (∃ r, Print [] (some (.struct tagVariants)) [] = .ok r) ∧
      Print [] (some (.struct tagVariants)) [] =
        .ok { sink := str ("=== Configuration ===\nA: ********\nB: ********\nC: ********\n"
                ++ "D: ********\nE: ********\nF: ********\n"),
              err := none } :=
  ⟨(print_masks_unless_safe_true [] tagVariants []).1 (by decide) (by decide), by decide⟩

/-- Claim C2 (P3, safe fields pass through).  For a struct with exported
fields whose sensitive values `maskValue` can mask, under any configuration,
`Print` returns nil; and in any report `Print` returns with, the value on the
line of every field tagged `safe:"true"` is the rendered value of the field
itself, of whatever length. -/
theorem print_safe_fields_raw (w : GoString) (fields : List StructField)
    (opts : List PrinterOption) :
    ((∀ f ∈ fields, f.exported = true) →
      (∀ f ∈ fields, f.Tag.Get (str "safe") ≠ str "true" →
        (maskValue (newPrinter opts) (sprintV f.value)).isOk = true) →
      ∃ r, Print w (some (.struct fields)) opts = .ok r) ∧
    (∀ r, Print w (some (.struct fields)) opts = .ok r →
      ∃ entries : List configEntry,
        List.Forall₂ (fun f e => e.Key = f.Name ∧
          (f.Tag.Get (str "safe") = str "true" → e.Value = sprintV f.value)) fields entries ∧
        r = { sink := w ++ str "=== Configuration ===\n"
                ++ (sortEntries entries).flatMap (formatEntry (longestName fields)),
              err := none }) := by
  constructor
  · intro hexp hmask
    obtain ⟨es, hes⟩ := entries_exist (newPrinter opts) fields hexp hmask
    exact ⟨_, Print_struct_ok w fields opts es (hes.imp (fun _ _ h => h.1))⟩
  · intro r hr
    obtain ⟨es, hes, hr'⟩ := Print_struct_inv w fields opts r hr
    refine ⟨es, hes.imp (fun f e h => ?_), hr'⟩
    obtain ⟨_, hk, hv, _⟩ := fieldEntry_inv _ f e h
    exact ⟨hk, hv⟩

set_option maxRecDepth 100000 in
theorem print_safe_fields_raw_witness :
    (∃ r, Print [] (some (.struct safeOnly)) [WithMaskLength (-1), WithMinSecretLen 0]
        = .ok r) ∧
      Print [] (some (.struct safeOnly)) [WithMaskLength (-1), WithMinSecretLen 0] =
        .ok { sink := str ("=== Configuration ===\nEnvironment: \n"
                ++ "Port       : 8080\n"),
              err := none } ∧
      Print [] (some (testConfig [] 0 [] [])) [] =
        .ok { sink := str ("=== Configuration ===\nAPIKey     : ********\nEnvironment: \n"
                ++ "Port       : 0\nSecretKey  : ********\n"),
              err := none } ∧
      Print [] (some (testConfig [] 0 [] (str "a-development-environment-name"))) [] =
        .ok { sink := str ("=== Configuration ===\nAPIKey     : ********\n"
                ++ "Environment: a-development-environment-name\n"
                ++ "Port       : 0\nSecretKey  : ********\n"),
              err := none } :=
  ⟨(print_safe_fields_raw [] safeOnly [WithMaskLength (-1), WithMinSecretLen 0]).1
      (by decide) (by decide),
    by decide, by decide, by decide⟩

/-! ## The report -/

/-- Claim C7 (output format).  For a struct with exported fields whose
sensitive values `maskValue` can mask, `Print` returns nil and the text it adds
to the sink is the header line followed by one line per field, in ascending
order of the names: the name, spaces filling it up to the width
`longestName fields` (a width that `fmt` counts in runes), `": "`, the final
value of the field and a newline.  On a struct without fields the text is the
header line alone. -/
theorem print_output_format (w : GoString) (fields : List StructField)
    (opts : List PrinterOption) :
    ((∀ f ∈ fields, f.exported = true) →
      (∀ f ∈ fields, f.Tag.Get (str "safe") ≠ str "true" →
        (maskValue (newPrinter opts) (sprintV f.value)).isOk = true) →
      ∃ entries sorted : List configEntry,
        List.Forall₂ (fun f e => e.Key = f.Name ∧
          (f.Tag.Get (str "safe") = str "true" → e.Value = sprintV f.value) ∧
          (f.Tag.Get (str "safe") ≠ str "true" →
            maskValue (newPrinter opts) (sprintV f.value) = .ok e.Value)) fields entries ∧
        sorted.Perm entries ∧
        sorted.Sorted (fun a b => strLess b.Key a.Key = false) ∧
        Print w (some (.struct fields)) opts =
          .ok { sink := w ++ str "=== Configuration ===\n" ++
                  sorted.flatMap (fun e =>
                    e.Key
                      ++ List.replicate
                          (longestName fields - (RuneCountInString e.Key : Int)).toNat 0x20
                      ++ str ": " ++ e.Value ++ str "\n"),
                err := none }) ∧
    Print w (some (.struct [])) opts =
      .ok { sink := w ++ str "=== Configuration ===\n", err := none } := by
  constructor
  · intro hexp hmask
    obtain ⟨es, hes⟩ := entries_exist (newPrinter opts) fields hexp hmask
    refine ⟨es, sortEntries es, hes.imp (fun _ _ h => h.2), sortEntries_perm es,
      sortEntries_sorted es, ?_⟩
    rw [Print_struct_ok w fields opts es (hes.imp (fun _ _ h => h.1))]
    rfl
  · rw [Print_struct_ok w [] opts [] List.Forall₂.nil]
    simp [sortEntries]

set_option maxRecDepth 100000 in
theorem print_output_format_witness :
    (∃ entries sorted : List configEntry,
        List.Forall₂ (fun f e => e.Key = f.Name ∧
          (f.Tag.Get (str "safe") = str "true" → e.Value = sprintV f.value) ∧
          (f.Tag.Get (str "safe") ≠ str "true" →
            maskValue (newPrinter []) (sprintV f.value) = .ok e.Value))
          (Value.fields (some (testConfig (str "very-long-secret-key-123") 8080
            (str "short-secret") (str "development")))) entries ∧
        sorted.Perm entries ∧
        sorted.Sorted (fun a b => strLess b.Key a.Key = false) ∧
        Print [] (some (testConfig (str "very-long-secret-key-123") 8080
            (str "short-secret") (str "development"))) [] =
          .ok { sink := [] ++ str "=== Configuration ===\n" ++
                  sorted.flatMap (fun e =>
                    e.Key
                      ++ List.replicate
                          (longestName (Value.fields (some (testConfig
                              (str "very-long-secret-key-123") 8080
                              (str "short-secret") (str "development"))))
                            - (RuneCountInString e.Key : Int)).toNat 0x20
                      ++ str ": " ++ e.Value ++ str "\n"),
                err := none }) ∧
      Print [] (some (testConfig (str "very-long-secret-key-123") 8080
          (str "short-secret") (str "development"))) [] =
        .ok { sink := str ("=== Configuration ===\nAPIKey     : ********123\n"
                ++ "Environment: development\nPort       : 8080\nSecretKey  : ********\n"),
              err := none } :=
  ⟨(print_output_format [] (Value.fields (some (testConfig (str "very-long-secret-key-123")
      8080 (str "short-secret") (str "development")))) []).1 (by decide) (by decide),
    by decide⟩

/-- Claim C8 (P4, deterministic ordering).  For a struct with exported fields
whose sensitive values `maskValue` can mask, the entries `Print` writes are a
permutation of the entries of the fields, one entry per field, in ascending
bytewise order of the names; and when the names differ from one another, a
struct with the same fields in another order yields the same result. -/
theorem print_sorted_permutation (w : GoString) (fields : List StructField)
    (opts : List PrinterOption) (hexp : ∀ f ∈ fields, f.exported = true)
    (hmask : ∀ f ∈ fields, f.Tag.Get (str "safe") ≠ str "true" →
      (maskValue (newPrinter opts) (sprintV f.value)).isOk = true) :
    (∃ entries sorted : List configEntry,
      List.Forall₂ (fun f e => fieldEntry (newPrinter opts) f = .ok e ∧ e.Key = f.Name)
        fields entries ∧
      sorted.Perm entries ∧
      sorted.Sorted (fun a b => strLess b.Key a.Key = false) ∧
      Print w (some (.struct fields)) opts =
        .ok { sink := w ++ str "=== Configuration ===\n"
                ++ sorted.flatMap (formatEntry (longestName fields)),
              err := none }) ∧
    (∀ fields' : List StructField, fields'.Perm fields →
      (fields.map (fun f => f.Name)).Nodup →
      Print w (some (.struct fields')) opts = Print w (some (.struct fields)) opts) := by
  obtain ⟨es, hes⟩ := entries_exist (newPrinter opts) fields hexp hmask
  have hes1 := hes.imp (fun _ _ h => h.1)
  constructor
  · exact ⟨es, sortEntries es, hes.imp (fun _ _ h => ⟨h.1, h.2.1⟩), sortEntries_perm es,
      sortEntries_sorted es, Print_struct_ok w fields opts es hes1⟩
  · intro fields' hp hnd
    obtain ⟨es', hes'⟩ := entries_exist (newPrinter opts) fields'
      (fun f hf => hexp f (hp.mem_iff.mp hf)) (fun f hf => hmask f (hp.mem_iff.mp hf))
    have hes1' := hes'.imp (fun _ _ h => h.1)
    have hperm : es'.Perm es := by
      rw [← entries_eq_filterMap _ _ _ hes1', ← entries_eq_filterMap _ _ _ hes1]
      exact hp.filterMap _
    have hkeys : ((sortEntries es').map (fun e => e.Key)).Nodup := by
      have h1 : ((sortEntries es').map (fun e => e.Key)).Perm (fields.map (fun f => f.Name)) := by
        rw [← entries_keys _ _ _ hes1]
        exact (((sortEntries_perm es').trans hperm)).map _
      exact h1.nodup_iff.mpr hnd
    have hsort : sortEntries es' = sortEntries es :=
      sorted_unique _ _ (((sortEntries_perm es').trans hperm).trans (sortEntries_perm es).symm)
        (sortEntries_sorted es') (sortEntries_sorted es) hkeys
    rw [Print_struct_ok w fields' opts es' hes1', Print_struct_ok w fields opts es hes1,
      hsort, longestName_perm _ _ hp]

set_option maxRecDepth 100000 in
theorem print_sorted_permutation_witness :
    Print [] (some (.struct (Value.fields (some (testConfig (str "very-long-secret-key-123")
        8080 (str "short-secret") (str "development")))).reverse)) [] =
      Print [] (some (.struct (Value.fields (some (testConfig (str "very-long-secret-key-123")
        8080 (str "short-secret") (str "development")))))) [] :=
  (print_sorted_permutation [] (Value.fields (some (testConfig (str "very-long-secret-key-123")
      8080 (str "short-secret") (str "development")))) [] (by decide) (by decide)).2
    _ (List.reverse_perm _) (by decide)

/-! ## Alignment -/

theorem runeCountLoop_le (fuel : Nat) (s : GoString) : runeCountLoop fuel s ≤ s.length := by
  induction fuel generalizing s with
  | zero => simp [runeCountLoop]
  | succ n ih =>
    cases s with
    | nil => simp [runeCountLoop]
    | cons c rest =>
      simp only [runeCountLoop, List.length_cons]
      have h1 := ih (rest.drop (runeSize c rest - 1))
      have h2 : (rest.drop (runeSize c rest - 1)).length ≤ rest.length := by
        rw [List.length_drop]
        omega
      omega

/-- A string has at most as many runes as bytes. -/
theorem RuneCountInString_le (s : GoString) : (RuneCountInString s : Int) ≤ len s := by
  have := runeCountLoop_le s.length s
  simp only [RuneCountInString, len]
  omega

theorem runeCountLoop_ascii (fuel : Nat) (s : GoString) (hf : s.length ≤ fuel)
    (h : ∀ b ∈ s, b < 0x80) : runeCountLoop fuel s = s.length := by
  induction fuel generalizing s with
  | zero =>
    cases s with
    | nil => rfl
    | cons c rest => simp at hf
  | succ n ih =>
    cases s with
    | nil => rfl
    | cons c rest =>
      have hc : c < 0x80 := h c (List.mem_cons_self _ _)
      simp only [runeCountLoop, runeSize, if_pos hc, Nat.sub_self, List.drop_zero,
        List.length_cons]
      rw [ih rest (by simpa using hf) (fun b hb => h b (List.mem_cons_of_mem _ hb))]
      omega

/-- A string of ASCII bytes has as many runes as bytes. -/
theorem RuneCountInString_ascii (s : GoString) (h : ∀ b ∈ s, b < 0x80) :
    (RuneCountInString s : Int) = len s := by
  simp only [RuneCountInString, len, runeCountLoop_ascii s.length s (le_refl _) h]

theorem len_le_longestName (fields : List StructField) (f : StructField) (hf : f ∈ fields) :
    len f.Name ≤ longestName fields := by
  induction fields with
  | nil => cases hf
  | cons g rest ih =>
    simp only [longestName, List.map_cons, List.foldr_cons] at *
    rcases List.mem_cons.mp hf with h | h
    · subst h
      omega
    · have := ih h
      omega

theorem exists_longestName (fields : List StructField) (hne : fields ≠ []) :
    ∃ f ∈ fields, len f.Name = longestName fields := by
  induction fields with
  | nil => exact absurd rfl hne
  | cons g rest ih =>
    by_cases hg : longestName rest ≤ len g.Name
    · refine ⟨g, List.mem_cons_self _ _, ?_⟩
      simp only [longestName, List.map_cons, List.foldr_cons] at *
      omega
    · have hrest : rest ≠ [] := by
        rintro rfl
        apply hg
        simp [longestName, len]
      obtain ⟨f, hf, hlen⟩ := ih hrest
      refine ⟨f, List.mem_cons_of_mem _ hf, ?_⟩
      simp only [longestName, List.map_cons, List.foldr_cons] at *
      omega

/-- Claim C9 (P5, alignment).  For a struct with at least one field, exported
fields and sensitive values that `maskValue` can mask, every entry line that
`Print` writes is the whole name, then padding spaces, then `": "`; the runes
of the name and the padding together number `longestName fields` on every
line, which is the length `len` of a longest field name of the struct; and
when the names are ASCII, the separator starts at that byte offset. -/
theorem print_alignment (w : GoString) (fields : List StructField)
    (opts : List PrinterOption) (hne : fields ≠ [])
    (hexp : ∀ f ∈ fields, f.exported = true)
    (hmask : ∀ f ∈ fields, f.Tag.Get (str "safe") ≠ str "true" →
      (maskValue (newPrinter opts) (sprintV f.value)).isOk = true) :
    ∃ sorted : List configEntry,
      Print w (some (.struct fields)) opts =
        .ok { sink := w ++ str "=== Configuration ===\n" ++
                sorted.flatMap (fun e =>
                  e.Key ++ List.replicate (padding (longestName fields) e.Key) 0x20
                    ++ str ": " ++ e.Value ++ str "\n"),
              err := none } ∧
      (sorted.map (fun e => e.Key)).Perm (fields.map (fun f => f.Name)) ∧
      (∀ e ∈ sorted,
        (RuneCountInString e.Key : Int) + (padding (longestName fields) e.Key : Int)
          = longestName fields) ∧
      (∀ f ∈ fields, len f.Name ≤ longestName fields) ∧
      (∃ f ∈ fields, len f.Name = longestName fields) ∧
      ((∀ f ∈ fields, ∀ b ∈ f.Name, b < 0x80) →
        ∀ e ∈ sorted,
          len (e.Key ++ List.replicate (padding (longestName fields) e.Key) 0x20)
            = longestName fields) := by
  obtain ⟨es, hes⟩ := entries_exist (newPrinter opts) fields hexp hmask
  have hes1 := hes.imp (fun _ _ h => h.1)
  have hkeys : ((sortEntries es).map (fun e => e.Key)).Perm (fields.map (fun f => f.Name)) := by
    rw [← entries_keys _ _ _ hes1]
    exact (sortEntries_perm es).map _
  have hmem : ∀ e ∈ sortEntries es, ∃ f ∈ fields, f.Name = e.Key := by
    intro e he
    have : e.Key ∈ fields.map (fun f => f.Name) :=
      hkeys.mem_iff.mp (List.mem_map_of_mem _ he)
    obtain ⟨f, hf, hfe⟩ := List.mem_map.mp this
    exact ⟨f, hf, hfe⟩
  refine ⟨sortEntries es, ?_, hkeys, ?_, len_le_longestName fields,
    exists_longestName fields hne, ?_⟩
  · rw [Print_struct_ok w fields opts es hes1]
    rfl
  · intro e he
    obtain ⟨f, hf, hfe⟩ := hmem e he
    have h1 := len_le_longestName fields f hf
    have h2 := RuneCountInString_le e.Key
    rw [hfe] at h1
    simp only [padding]
    omega
  · intro hascii e he
    obtain ⟨f, hf, hfe⟩ := hmem e he
    have h1 := len_le_longestName fields f hf
    have h2 := RuneCountInString_ascii e.Key (hfe ▸ hascii f hf)
    rw [hfe] at h1
    simp only [padding, len, List.length_append, List.length_replicate] at *
    omega

set_option maxRecDepth 100000 in
theorem print_alignment_witness :
    ∃ sorted : List configEntry,
      Print [] (some (.struct nonAsciiNames)) [] =
        .ok { sink := [] ++ str "=== Configuration ===\n" ++
                sorted.flatMap (fun e =>
                  e.Key ++ List.replicate (padding 5 e.Key) 0x20
                    ++ str ": " ++ e.Value ++ str "\n"),
              err := none } ∧
      (∀ e ∈ sorted, (RuneCountInString e.Key : Int) + (padding 5 e.Key : Int) = 5) ∧
      Print [] (some (.struct nonAsciiNames)) [] =
        .ok { sink := str "=== Configuration ===\nPort : 8080\nÉtat : ********\n",
              err := none } := by
  obtain ⟨sorted, h1, _, h3, _⟩ :=
    print_alignment [] nonAsciiNames [] (by decide) (by decide) (by decide)
  exact ⟨sorted, h1, h3, by decide⟩

/-! ## Failure -/

/-- Under a non-negative mask length and a suffix length that is 0 or lies
between 0 and the threshold, `maskValue` returns on every value. -/
theorem maskValue_total (p : printer) (value : GoString) (hm : 0 ≤ p.maskLength)
    (hs : 0 ≤ p.lastCharacters) (hle : p.lastCharacters ≤ p.minSecretLen ∨ p.lastCharacters = 0) :
    (maskValue p value).isOk = true := by
  rw [isOk_iff, maskValue_ok_iff]
  refine ⟨hm, ?_⟩
  have : (0 : Int) ≤ len value := by simp [len]
  by_cases h : len value < p.minSecretLen
  · exact Or.inl h
  · right
    rcases hle with h1 | h1 <;> omega

theorem Print_not_struct (w : GoString) (cfg : Option GoValue) (opts : List PrinterOption)
    (h : isStructOrPointerToStruct cfg = false) :
    Print w cfg opts =
      .ok { sink := w, err := some (str "cfg must be a struct or pointer to struct") } := by
  match cfg, h with
  | none, _ => rfl
  | some (.plain k), _ => cases k <;> rfl
  | some (.ptr none), _ => rfl
  | some (.ptr (some (.plain k))), _ => cases k <;> rfl
  | some (.ptr (some (.ptr _))), _ => rfl

theorem Print_pointer (w : GoString) (fields : List StructField) (opts : List PrinterOption) :
    Print w (some (.ptr (some (.struct fields)))) opts
      = Print w (some (.struct fields)) opts := by
  rfl

theorem Print_struct_err (w : GoString) (cfg : Option GoValue) (opts : List PrinterOption)
    (h : isStructOrPointerToStruct cfg = true) (r : PrintResult)
    (hr : Print w cfg opts = .ok r) : r.err = none := by
  match cfg, h with
  | some (.struct fields), _ =>
    obtain ⟨_, _, h2⟩ := Print_struct_inv w fields opts r hr
    rw [h2]
  | some (.ptr (some (.struct fields))), _ =>
    rw [Print_pointer] at hr
    obtain ⟨_, _, h2⟩ := Print_struct_inv w fields opts r hr
    rw [h2]

/-- Claim C6, counterexample: on the struct of the test "empty config", whose
sensitive fields hold empty strings, under the threshold `minSecretLen = 0`
and the default suffix length 3, `Print` does not return: it panics on the
slice `value[-3:]`. -/
theorem print_zero_threshold_counterexample :
    (newPrinter [WithMinSecretLen 0]).minSecretLen = 0 ∧
      (newPrinter [WithMinSecretLen 0]).lastCharacters = 3 ∧
      Print [] (some (testConfig [] 0 [] [])) [WithMinSecretLen 0]
        = .error .sliceBoundsOutOfRange := by
  decide

/-- Claim C6, amended.  For every struct with exported fields, whatever their
values, and every configuration with a non-negative mask length and a suffix
length that is 0 or lies between 0 and `minSecretLen` (a mask length 0 and a
suffix length 0 included, a threshold 0 together with the suffix length 0),
`Print` returns nil after writing the header and one line per field; and on
no input and under no configuration does `Print` return an error unless the
input is neither a struct nor a pointer to a struct. -/
theorem print_zero_parameters_ok (w : GoString) (fields : List StructField)
    (opts : List PrinterOption) (hexp : ∀ f ∈ fields, f.exported = true)
    (hm : 0 ≤ (newPrinter opts).maskLength) (hs : 0 ≤ (newPrinter opts).lastCharacters)
    (hle : (newPrinter opts).lastCharacters ≤ (newPrinter opts).minSecretLen ∨
      (newPrinter opts).lastCharacters = 0) :
    (∃ entries : List configEntry,
      entries.map (fun e => e.Key) = fields.map (fun f => f.Name) ∧
      Print w (some (.struct fields)) opts =
        .ok { sink := w ++ str "=== Configuration ===\n"
                ++ (sortEntries entries).flatMap (formatEntry (longestName fields)),
              err := none }) ∧
    (∀ (w' : GoString) (cfg : Option GoValue) (opts' : List PrinterOption) (r : PrintResult),
      Print w' cfg opts' = .ok r → r.err ≠ none → isStructOrPointerToStruct cfg = false) := by
  constructor
  · obtain ⟨es, hes⟩ := entries_exist (newPrinter opts) fields hexp
      (fun f _ _ => maskValue_total _ _ hm hs hle)
    have hes1 := hes.imp (fun _ _ h => h.1)
    exact ⟨es, entries_keys _ _ _ hes1, Print_struct_ok w fields opts es hes1⟩
  · intro w' cfg opts' r hr herr
    cases hk : isStructOrPointerToStruct cfg with
    | false => rfl
    | true => exact absurd (Print_struct_err w' cfg opts' hk r hr) herr

set_option maxRecDepth 100000 in
theorem print_zero_parameters_ok_witness :
    (∃ entries : List configEntry,
      entries.map (fun e => e.Key)
        = (Value.fields (some (testConfig [] 0 [] []))).map (fun f => f.Name) ∧
      Print [] (some (testConfig [] 0 [] []))
          [WithMaskLength 0, WithVisibleSuffix 0, WithMinSecretLen 0] =
        .ok { sink := [] ++ str "=== Configuration ===\n"
                ++ (sortEntries entries).flatMap
                    (formatEntry (longestName (Value.fields (some (testConfig [] 0 [] []))))),
              err := none }) ∧
      Print [] (some (testConfig [] 0 [] []))
          [WithMaskLength 0, WithVisibleSuffix 0, WithMinSecretLen 0] =
        .ok { sink := str ("=== Configuration ===\nAPIKey     : \nEnvironment: \n"
                ++ "Port       : 0\nSecretKey  : \n"),
              err := none } :=
  ⟨(print_zero_parameters_ok [] (Value.fields (some (testConfig [] 0 [] [])))
      [WithMaskLength 0, WithVisibleSuffix 0, WithMinSecretLen 0]
      (by decide) (by decide) (by decide) (by decide)).1, by decide⟩

/-- Claim C10 (P6, non-struct rejection).  On an input that is neither a
struct nor a pointer to a struct (a nil interface, a value of another kind, a
nil pointer, a pointer to anything but a struct) `Print` returns the error
`cfg must be a struct or pointer to struct` and leaves the sink as it was; on
a struct or a pointer to a struct `Print` returns no error. -/
theorem print_rejects_non_struct (w : GoString) (cfg : Option GoValue)
    (opts : List PrinterOption) :
    (isStructOrPointerToStruct cfg = false →
      Print w cfg opts =
        .ok { sink := w, err := some (str "cfg must be a struct or pointer to struct") }) ∧
    (isStructOrPointerToStruct cfg = true →
      ∀ r, Print w cfg opts = .ok r → r.err = none) :=
  ⟨Print_not_struct w cfg opts, Print_struct_err w cfg opts⟩

theorem print_rejects_non_struct_witness :
    Print (str "log: ") (some (.plain .String)) [] =
        .ok { sink := str "log: ",
              err := some (str "cfg must be a struct or pointer to struct") } ∧
      Print [] none [WithMaskLength (-1)] =
        .ok { sink := [], err := some (str "cfg must be a struct or pointer to struct") } ∧
      Print [] (some (.ptr none)) [] =
        .ok { sink := [], err := some (str "cfg must be a struct or pointer to struct") } ∧
      Print [] (some (.ptr (some (.plain .Int)))) [] =
        .ok { sink := [], err := some (str "cfg must be a struct or pointer to struct") } ∧
      (∀ r, Print [] (some (.ptr (some (testConfig [] 0 [] [])))) [] = .ok r → r.err = none) :=
  ⟨(print_rejects_non_struct _ (some (.plain .String)) []).1 rfl,
    (print_rejects_non_struct _ none _).1 rfl,
    (print_rejects_non_struct _ (some (.ptr none)) _).1 rfl,
    (print_rejects_non_struct _ (some (.ptr (some (.plain .Int)))) _).1 rfl,
    (print_rejects_non_struct _ (some (.ptr (some (testConfig [] 0 [] [])))) _).2 rfl⟩

/-! ## Options -/

theorem newPrinter_nil :
    newPrinter [] = { maskLength := 8, lastCharacters := 3, minSecretLen := 20 } := by
  rfl

/-- One more option at the end of the list is applied to the printer of the
list before it. -/
theorem newPrinter_append (opts : List PrinterOption) (opt : PrinterOption) :
    newPrinter (opts ++ [opt]) = opt (newPrinter opts) := by
  simp [newPrinter, List.foldl_append]

/-- The option of a call assigns the argument to the target and keeps the
other fields. -/
theorem option_get (c : OptionCall) (p : printer) (field : printerField) :
    (c.option p).get field = if c.target = field then c.arg else p.get field := by
  cases c <;> cases field <;> rfl

/-- Options on different fields commute, and so do two equal options. -/
theorem option_comm (a b : OptionCall) (h : a.target = b.target → a = b) (p : printer) :
    b.option (a.option p) = a.option (b.option p) := by
  cases a <;> cases b <;> first
    | rfl
    | (have hab := h rfl
       rw [hab])

theorem Print_congr (w : GoString) (cfg : Option GoValue) (opts opts' : List PrinterOption)
    (h : newPrinter opts' = newPrinter opts) : Print w cfg opts' = Print w cfg opts := by
  simp only [Print, h]

/-- Claim C11 (defaults and single-field override).  Without options
`newPrinter` returns the printer with `maskLength = 8`, `lastCharacters = 3`
and `minSecretLen = 20`; and for every integer `n` and every printer `p`, each
of `WithMaskLength(n)`, `WithVisibleSuffix(n)` and `WithMinSecretLen(n)` sets
its own field of `p` to `n` and leaves the other two as they are, so that
`newPrinter` with that single option differs from the defaults in that field
alone. -/
theorem newPrinter_defaults_and_single_override :
    newPrinter [] = { maskLength := 8, lastCharacters := 3, minSecretLen := 20 } ∧
    (∀ (n : Int) (p : printer),
      WithMaskLength n p = { maskLength := n, lastCharacters := p.lastCharacters,
                             minSecretLen := p.minSecretLen } ∧
      WithVisibleSuffix n p = { maskLength := p.maskLength, lastCharacters := n,
                                minSecretLen := p.minSecretLen } ∧
      WithMinSecretLen n p = { maskLength := p.maskLength,
                               lastCharacters := p.lastCharacters, minSecretLen := n }) ∧
    (∀ n : Int,
      newPrinter [WithMaskLength n] = { maskLength := n, lastCharacters := 3,
                                        minSecretLen := 20 } ∧
      newPrinter [WithVisibleSuffix n] = { maskLength := 8, lastCharacters := n,
                                           minSecretLen := 20 } ∧
      newPrinter [WithMinSecretLen n] = { maskLength := 8, lastCharacters := 3,
                                          minSecretLen := n }) :=
  ⟨rfl, fun _ _ => ⟨rfl, rfl, rfl⟩, fun _ => ⟨rfl, rfl, rfl⟩⟩

/-- Claim C12 (option order-independence), counterexample: the options
`WithMaskLength(4), WithMaskLength(6)` and the same two in the other order are
permutations of each other, and `newPrinter` returns the mask length 6 for the
first list and 4 for the second; `Print` then writes different reports for
the struct of the test "basic config with default options". -/
theorem newPrinter_order_counterexample :
    [OptionCall.maskLength 6, OptionCall.maskLength 4].Perm
        [OptionCall.maskLength 4, OptionCall.maskLength 6] ∧
      (newPrinter ([OptionCall.maskLength 4, OptionCall.maskLength 6].map
        OptionCall.option)).maskLength = 6 ∧
      (newPrinter ([OptionCall.maskLength 6, OptionCall.maskLength 4].map
        OptionCall.option)).maskLength = 4 ∧
      Print [] (some (.struct basicConfig)) [WithMaskLength 6, WithMaskLength 4]
        ≠ Print [] (some (.struct basicConfig)) [WithMaskLength 4, WithMaskLength 6] := by
  refine ⟨List.Perm.swap _ _ _, rfl, rfl, ?_⟩
  decide

/-- Claim C12, amended: for every list of options in which any two options
that set the same field are the same option (as when every field is set at
most once), every permutation of the list gives the same printer, and `Print`
the same result on every input. -/
theorem newPrinter_perm_of_one_value_per_field (calls calls' : List OptionCall)
    (hp : calls'.Perm calls)
    (hone : ∀ a ∈ calls, ∀ b ∈ calls, a.target = b.target → a = b) :
    newPrinter (calls'.map OptionCall.option) = newPrinter (calls.map OptionCall.option) ∧
      ∀ (w : GoString) (cfg : Option GoValue),
        Print w cfg (calls'.map OptionCall.option)
          = Print w cfg (calls.map OptionCall.option) := by
  have h : newPrinter (calls'.map OptionCall.option)
      = newPrinter (calls.map OptionCall.option) := by
    simp only [newPrinter, List.foldl_map]
    apply hp.foldl_eq'
    intro x hx y hy z
    exact option_comm x y (hone x (hp.mem_iff.mp hx) y (hp.mem_iff.mp hy)) z
  exact ⟨h, fun w cfg => Print_congr w cfg _ _ h⟩

theorem newPrinter_perm_of_one_value_per_field_witness :
    newPrinter ([OptionCall.minSecretLen 15, OptionCall.maskLength 4,
        OptionCall.visibleSuffix 5, OptionCall.maskLength 4].map OptionCall.option)
      = newPrinter ([OptionCall.maskLength 4, OptionCall.visibleSuffix 5,
          OptionCall.minSecretLen 15, OptionCall.maskLength 4].map OptionCall.option) :=
  (newPrinter_perm_of_one_value_per_field
    [OptionCall.maskLength 4, OptionCall.visibleSuffix 5, OptionCall.minSecretLen 15,
      OptionCall.maskLength 4]
    [OptionCall.minSecretLen 15, OptionCall.maskLength 4, OptionCall.visibleSuffix 5,
      OptionCall.maskLength 4]
    (by decide) (by decide)).1

/-- Claim C18 (last option wins).  `newPrinter` starts from the defaults and
applies the options from left to right; so for every list of option calls
each field of the printer is the argument of the last call in the list that
targets the field, and the default of the field when no call targets it. -/
theorem newPrinter_last_option_wins :
    newPrinter [] = { maskLength := defaultMaskLength,
                      lastCharacters := defaultLastCharacters,
                      minSecretLen := defaultMinSecretLen } ∧
    (∀ (opts : List PrinterOption) (opt : PrinterOption),
      newPrinter (opts ++ [opt]) = opt (newPrinter opts)) ∧
    (∀ (calls : List OptionCall) (field : printerField),
      (newPrinter (calls.map OptionCall.option)).get field
        = (lastArg calls field).getD field.default) := by
  refine ⟨rfl, newPrinter_append, ?_⟩
  intro calls field
  induction calls using List.reverseRecOn with
  | nil => cases field <;> rfl
  | append_singleton l c ih =>
    rw [List.map_append, List.map_singleton, newPrinter_append, option_get]
    by_cases h : c.target = field
    · simp [lastArg, List.filter_append, h]
    · simp only [lastArg, List.filter_append] at ih ⊢
      simp [h, ih]

/-! ## Pointers and padding -/

/-- Claim C13 (pointer transparency).  For every struct and every list of
options, `Print` on a pointer to the struct has the outcome of `Print` on the
struct itself: the same bytes in the sink and the same returned error, or
the same panic. -/
theorem print_pointer_transparent (w : GoString) (fields : List StructField)
    (opts : List PrinterOption) :
    Print w (some (.ptr (some (.struct fields)))) opts
      = Print w (some (.struct fields)) opts :=
  Print_pointer w fields opts

/-- Claim C14 (left-padded entry lines), counterexample: for the struct of
the test "basic config with default options" the report holds the line
`APIKey     : ********123`, with the five padding spaces after the name; the
report with the spaces before the names is another text. -/
theorem print_left_padded_counterexample :
    Print [] (some (.struct basicConfig)) [] =
        .ok { sink := str ("=== Configuration ===\nAPIKey     : ********123\n"
                ++ "Environment: development\nPort       : 8080\nSecretKey  : ********\n"),
              err := none } ∧
      str "=== Configuration ===\n" ++
          (sortEntries
            [ { Key := str "APIKey", Value := str "********123" },
              { Key := str "Port", Value := str "8080" },
              { Key := str "SecretKey", Value := str "********" },
              { Key := str "Environment", Value := str "development" } ]).flatMap
            (leftPaddedLine (longestName basicConfig))
        = str ("=== Configuration ===\n     APIKey: ********123\n"
            ++ "Environment: development\n       Port: 8080\n  SecretKey: ********\n") ∧
      Print [] (some (.struct basicConfig)) [] ≠
        .ok { sink := str ("=== Configuration ===\n     APIKey: ********123\n"
                ++ "Environment: development\n       Port: 8080\n  SecretKey: ********\n"),
              err := none } := by
  set_option maxRecDepth 100000 in decide

/-- Claim C14, amended: for a struct with exported fields whose sensitive
values `maskValue` can mask, each entry line that `Print` writes is the field
name, then the spaces that fill it up to `maxKeyWidth` (the padding is placed
after the name), then `": "`, the final value and a newline. -/
theorem print_lines_right_padded (w : GoString) (fields : List StructField)
    (opts : List PrinterOption) (hexp : ∀ f ∈ fields, f.exported = true)
    (hmask : ∀ f ∈ fields, f.Tag.Get (str "safe") ≠ str "true" →
      (maskValue (newPrinter opts) (sprintV f.value)).isOk = true) :
    ∃ entries : List configEntry,
      List.Forall₂ (fun f e => fieldEntry (newPrinter opts) f = .ok e ∧ e.Key = f.Name)
        fields entries ∧
      Print w (some (.struct fields)) opts =
        .ok { sink := w ++ str "=== Configuration ===\n" ++
                (sortEntries entries).flatMap (fun e =>
                  e.Key ++ List.replicate (padding (longestName fields) e.Key) 0x20
                    ++ str ": " ++ e.Value ++ str "\n"),
              err := none } := by
  obtain ⟨es, hes⟩ := entries_exist (newPrinter opts) fields hexp hmask
  refine ⟨es, hes.imp (fun _ _ h => ⟨h.1, h.2.1⟩), ?_⟩
  rw [Print_struct_ok w fields opts es (hes.imp (fun _ _ h => h.1))]
  rfl

set_option maxRecDepth 100000 in
theorem print_lines_right_padded_witness :
    (∃ entries : List configEntry,
      Print [] (some (.struct basicConfig)) [] =
        .ok { sink := [] ++ str "=== Configuration ===\n" ++
                (sortEntries entries).flatMap (fun e =>
                  e.Key ++ List.replicate (padding (longestName basicConfig) e.Key) 0x20
                    ++ str ": " ++ e.Value ++ str "\n"),
              err := none }) ∧
      str "Port" ++ List.replicate (padding (longestName basicConfig) (str "Port")) 0x20
          ++ str ": " ++ str "8080" ++ str "\n"
        = str "Port       : 8080\n" := by
  obtain ⟨entries, _, h⟩ :=
    print_lines_right_padded [] basicConfig [] (by decide) (by decide)
  exact ⟨⟨entries, h⟩, by decide⟩

/-! ## Determinism -/

theorem PrintMayReturn_not_struct (w : GoString) (cfg : Option GoValue)
    (opts : List PrinterOption) (out : Except Panic PrintResult)
    (h : isStructOrPointerToStruct cfg = false) :
    PrintMayReturn w cfg opts out ↔
      out = .ok { sink := w, err := some (str "cfg must be a struct or pointer to struct") } := by
  match cfg, h with
  | none, _ => exact Iff.rfl
  | some (.plain k), _ => cases k <;> exact Iff.rfl
  | some (.ptr none), _ => exact Iff.rfl
  | some (.ptr (some (.plain k))), _ => cases k <;> exact Iff.rfl
  | some (.ptr (some (.ptr _))), _ => exact Iff.rfl

theorem PrintMayReturn_pointer (w : GoString) (fields : List StructField)
    (opts : List PrinterOption) (out : Except Panic PrintResult) :
    PrintMayReturn w (some (.ptr (some (.struct fields)))) opts out ↔
      PrintMayReturn w (some (.struct fields)) opts out :=
  Iff.rfl

theorem PrintMayReturn_struct_error (w : GoString) (fields : List StructField)
    (opts : List PrinterOption) (out : Except Panic PrintResult) (e : Panic)
    (h : fieldLoop (newPrinter opts) fields [] 0 = .error e) :
    PrintMayReturn w (some (.struct fields)) opts out ↔ out = .error e := by
  simp [PrintMayReturn, ValueOf, Value.Kind, Value.fields, h]

theorem PrintMayReturn_struct_ok (w : GoString) (fields : List StructField)
    (opts : List PrinterOption) (out : Except Panic PrintResult) (es : List configEntry)
    (h : List.Forall₂ (fun f e => fieldEntry (newPrinter opts) f = .ok e) fields es) :
    PrintMayReturn w (some (.struct fields)) opts out ↔
      ∃ sorted, sortSliceMayLeave es sorted ∧
        out = .ok { sink := w ++ str "=== Configuration ===\n"
                      ++ sorted.flatMap (formatEntry (longestName fields)),
                    err := none } := by
  simp [PrintMayReturn, ValueOf, Value.Kind, Value.fields, fieldLoop_ok _ _ _ h,
    foldl_formatEntry, Fprintln, header_line]

/-- The function `Print` is one of the outcomes the contract allows. -/
theorem PrintMayReturn_Print (w : GoString) (cfg : Option GoValue)
    (opts : List PrinterOption) : PrintMayReturn w cfg opts (Print w cfg opts) := by
  cases hk : isStructOrPointerToStruct cfg with
  | false =>
    rw [PrintMayReturn_not_struct w cfg opts _ hk]
    exact Print_not_struct w cfg opts hk
  | true =>
    have hstruct : ∀ fields : List StructField,
        PrintMayReturn w (some (.struct fields)) opts (Print w (some (.struct fields)) opts) := by
      intro fields
      cases hl : fieldLoop (newPrinter opts) fields [] 0 with
      | error e =>
        rw [PrintMayReturn_struct_error w fields opts _ e hl, Print_struct, hl]
        rfl
      | ok r0 =>
        obtain ⟨es, hes⟩ := fieldLoop_inv _ _ _ _ _ hl
        rw [PrintMayReturn_struct_ok w fields opts _ es hes]
        exact ⟨sortEntries es, ⟨sortEntries_perm es, sortEntries_sorted es⟩,
          Print_struct_ok w fields opts es hes⟩
    match cfg, hk with
    | some (.struct fields), _ => exact hstruct fields
    | some (.ptr (some (.struct fields))), _ =>
      rw [PrintMayReturn_pointer, Print_pointer]
      exact hstruct fields

/-- On a struct whose field names differ from one another, every outcome the
contract of `sort.Slice` allows is the outcome of the function `Print`. -/
theorem PrintMayReturn_struct_unique (w : GoString) (fields : List StructField)
    (opts : List PrinterOption) (out : Except Panic PrintResult)
    (hn : (fields.map (fun f => f.Name)).Nodup)
    (h : PrintMayReturn w (some (.struct fields)) opts out) :
    out = Print w (some (.struct fields)) opts := by
  cases hl : fieldLoop (newPrinter opts) fields [] 0 with
  | error e =>
    rw [PrintMayReturn_struct_error w fields opts _ e hl] at h
    rw [h, Print_struct, hl]
    rfl
  | ok r0 =>
    obtain ⟨es, hes⟩ := fieldLoop_inv _ _ _ _ _ hl
    rw [PrintMayReturn_struct_ok w fields opts _ es hes] at h
    obtain ⟨sorted, ⟨hperm, hsorted⟩, hout⟩ := h
    have hkeys : (sorted.map (fun e => e.Key)).Nodup := by
      have h1 : (sorted.map (fun e => e.Key)).Perm (fields.map (fun f => f.Name)) := by
        rw [← entries_keys _ _ _ hes]
        exact hperm.map _
      exact h1.nodup_iff.mpr hn
    have heq : sorted = sortEntries es :=
      sorted_unique _ _ (hperm.trans (sortEntries_perm es).symm) hsorted
        (sortEntries_sorted es) hkeys
    rw [hout, heq, Print_struct_ok w fields opts es hes]

/-- Claim C15 (P7, determinism).  `sort.Slice` is not stable, so its contract
leaves `Print` more than one outcome in general; for an input whose field
names differ from one another (as the names of a struct do), the outcome is
one: any two calls on the same sink contents and the same input, with options
that give the same printer, have the same outcome, byte for byte, which is
the value of the function `Print`. -/
theorem print_deterministic (w : GoString) (cfg : Option GoValue) (opts : List PrinterOption)
    (hnames : ∀ fields : List StructField,
      cfg = some (.struct fields) ∨ cfg = some (.ptr (some (.struct fields))) →
        (fields.map (fun f => f.Name)).Nodup) :
    PrintMayReturn w cfg opts (Print w cfg opts) ∧
    ∀ (opts' : List PrinterOption) (out out' : Except Panic PrintResult),
      newPrinter opts' = newPrinter opts →
      PrintMayReturn w cfg opts out → PrintMayReturn w cfg opts' out' →
        out = out' ∧ out = Print w cfg opts := by
  have huniq : ∀ (o : List PrinterOption) (r : Except Panic PrintResult),
      PrintMayReturn w cfg o r → r = Print w cfg o := by
    intro o r hr
    cases hk : isStructOrPointerToStruct cfg with
    | false =>
      rw [PrintMayReturn_not_struct w cfg o _ hk] at hr
      rw [hr, Print_not_struct w cfg o hk]
    | true =>
      match cfg, hk, hnames, hr with
      | some (.struct fields), _, hn, hr =>
        exact PrintMayReturn_struct_unique w fields o r (hn fields (Or.inl rfl)) hr
      | some (.ptr (some (.struct fields))), _, hn, hr =>
        rw [PrintMayReturn_pointer] at hr
        rw [Print_pointer]
        exact PrintMayReturn_struct_unique w fields o r (hn fields (Or.inr rfl)) hr
  refine ⟨PrintMayReturn_Print w cfg opts, ?_⟩
  intro opts' out out' hp h h'
  have e1 := huniq opts out h
  have e2 := huniq opts' out' h'
  rw [Print_congr w cfg opts opts' hp] at e2
  exact ⟨e1.trans e2.symm, e1⟩

theorem print_deterministic_witness :
    PrintMayReturn [] (some (.struct basicConfig)) []
        (Print [] (some (.struct basicConfig)) []) ∧
      ∀ out out' : Except Panic PrintResult,
        PrintMayReturn [] (some (.struct basicConfig)) [] out →
        PrintMayReturn [] (some (.struct basicConfig)) [WithMaskLength 8] out' →
          out = out' ∧ out = Print [] (some (.struct basicConfig)) [] := by
  have h := print_deterministic [] (some (.struct basicConfig)) [] (by
    intro fields hf
    rcases hf with hf | hf
    · injection hf with hf
      injection hf with hf
      subst hf
      decide
    · injection hf with hf
      cases hf)
  exact ⟨h.1, fun out out' => h.2 [WithMaskLength 8] out out' (by decide)⟩

/-! ## What a masked value reveals -/

/-- Claim C16 (noninterference of short secrets).  Under a non-negative mask
length any two values shorter than `minSecretLen` are masked to the same
text, the run of `maskLength` asterisks, which depends on neither value; and
any two values of at least `minSecretLen` bytes that end in the same
`lastCharacters` bytes are masked alike, to the asterisks followed by those
bytes when the mask length is non-negative. -/
theorem maskValue_noninterference (p : printer) (v1 v2 : GoString) :
    (0 ≤ p.maskLength → len v1 < p.minSecretLen → len v2 < p.minSecretLen →
      maskValue p v1 = maskValue p v2 ∧
      maskValue p v1 = .ok (List.replicate p.maskLength.toNat 0x2A)) ∧
    (∀ suffix : GoString,
      p.minSecretLen ≤ len v1 → p.minSecretLen ≤ len v2 →
      suffix <:+ v1 → suffix <:+ v2 → len suffix = p.lastCharacters →
        maskValue p v1 = maskValue p v2 ∧
        (0 ≤ p.maskLength →
          maskValue p v1 = .ok (List.replicate p.maskLength.toNat 0x2A ++ suffix))) := by
  constructor
  · intro hm h1 h2
    rw [maskValue_below p v1 hm h1, maskValue_below p v2 hm h2]
    exact ⟨rfl, rfl⟩
  · intro suffix h1 h2 hs1 hs2 hlen
    by_cases hm : p.maskLength < 0
    · rw [maskValue_neg_panics p v1 hm, maskValue_neg_panics p v2 hm]
      exact ⟨rfl, fun h0 => absurd hm (not_lt.mpr h0)⟩
    · have hm0 : 0 ≤ p.maskLength := not_lt.mp hm
      have key : ∀ v : GoString, p.minSecretLen ≤ len v → suffix <:+ v →
          maskValue p v = .ok (List.replicate p.maskLength.toNat 0x2A ++ suffix) := by
        intro v hv hsv
        have hle : suffix.length ≤ v.length := hsv.length_le
        have hd : v.drop (len v - p.lastCharacters).toNat = suffix := by
          have h3 := List.suffix_iff_eq_drop.mp hsv
          have h4 : (len v - p.lastCharacters).toNat = v.length - suffix.length := by
            simp only [len] at hlen ⊢
            omega
          rw [h4, ← h3]
        rw [maskValue_above p v hm0 hv (by simp only [len] at hlen; omega)
          (by simp only [len] at hlen ⊢; omega), hd]
      rw [key v1 h1 hs1, key v2 h2 hs2]
      exact ⟨rfl, fun _ => rfl⟩

theorem maskValue_noninterference_witness :
    (maskValue (newPrinter []) (str "short-secret") = maskValue (newPrinter []) (str "pw") ∧
      maskValue (newPrinter []) (str "short-secret") = .ok (str "********")) ∧
    (maskValue (newPrinter []) (str "very-long-secret-key-123")
        = maskValue (newPrinter []) (str "another-secret-of-some-length-123") ∧
      ((0 : Int) ≤ (newPrinter []).maskLength →
        maskValue (newPrinter []) (str "very-long-secret-key-123")
          = .ok (List.replicate (newPrinter []).maskLength.toNat 0x2A ++ str "123"))) :=
  ⟨(maskValue_noninterference (newPrinter []) (str "short-secret") (str "pw")).1
      (by decide) (by decide) (by decide),
    (maskValue_noninterference (newPrinter []) (str "very-long-secret-key-123")
      (str "another-secret-of-some-length-123")).2 (str "123") (by decide) (by decide)
      (by decide) (by decide) (by decide)⟩

/-- Claim C17 (panic-freedom of masking).  With `maskLength >= 0` and
`0 <= lastCharacters <= minSecretLen`, on every value the repeat count is
accepted, the slice `value[len(value)-lastCharacters:]` is within bounds
whenever `maskValue` takes it (at `len(value) >= minSecretLen`), and
`maskValue` returns.  With `lastCharacters > minSecretLen >= 0` there are
values of exactly `minSecretLen` bytes, and on every one of them the slice is
out of range and `maskValue` panics. -/
theorem maskValue_panic_freedom (p : printer) :
    (0 ≤ p.maskLength → 0 ≤ p.lastCharacters → p.lastCharacters ≤ p.minSecretLen →
      ∀ value : GoString,
        (∃ stars, stringsRepeat (str "*") p.maskLength = .ok stars) ∧
        (p.minSecretLen ≤ len value →
          ∃ suffix, sliceFrom value (len value - p.lastCharacters) = .ok suffix) ∧
        (∃ masked, maskValue p value = .ok masked)) ∧
    (0 ≤ p.minSecretLen → p.minSecretLen < p.lastCharacters →
      (∃ value : GoString, len value = p.minSecretLen) ∧
      ∀ value : GoString, len value = p.minSecretLen →
        sliceFrom value (len value - p.lastCharacters) = .error .sliceBoundsOutOfRange ∧
        ∃ e, maskValue p value = .error e) := by
  constructor
  · intro hm hs hle value
    refine ⟨⟨_, stringsRepeat_star _ hm⟩, fun hv => ⟨_, sliceFrom_ok value _ (by omega) ?_⟩,
      isOk_iff.mp (maskValue_total p value hm hs (Or.inl hle))⟩
    omega
  · intro h0 hlt
    refine ⟨⟨List.replicate p.minSecretLen.toNat 0, ?_⟩, fun value hv => ?_⟩
    · simp only [len, List.length_replicate]
      omega
    · exact ⟨sliceFrom_error value _ (Or.inl (by omega)),
        maskValue_panics p value (by omega) (Or.inr (by omega))⟩

theorem maskValue_panic_freedom_witness :
    (∃ masked, maskValue (newPrinter []) (str "") = .ok masked) ∧
      (sliceFrom (str "ab")
          (len (str "ab") - (newPrinter [WithMinSecretLen 2]).lastCharacters)
        = .error .sliceBoundsOutOfRange ∧
        ∃ e, maskValue (newPrinter [WithMinSecretLen 2]) (str "ab") = .error e) :=
  ⟨((maskValue_panic_freedom (newPrinter [])).1 (by decide) (by decide) (by decide)
      (str "")).2.2,
    ((maskValue_panic_freedom (newPrinter [WithMinSecretLen 2])).2 (by decide)
      (by decide)).2 (str "ab") (by decide)⟩

end Confprint
